import Mathlib

/-!
A verification development for the tiddlylisp interpreter
(`devons-tiddlylisp.py`).  The Python source is shallowly embedded:

* strings are modelled as `List Char`;
* Python's heterogeneous runtime objects are the inductive `PyVal`
  (integers, booleans, strings/symbols, `None`, lists, the nine builtin
  operator procedures, and closures);
* the mutable environment chain is an arena of frames inside `State`,
  frames referring to their outer environment by index;
* the recursive `eval` is fuel-indexed (`evalF`); every function of the
  mutual block consumes one unit of fuel per call, so the whole block is
  structurally recursive on the fuel and computes by kernel reduction.

Python-2 specific behaviour that the claims depend on is reproduced:
`str.split`'s whitespace set, the string-merging loop of `tokenize`,
`int()` parsing (sign + digits, surrounding whitespace), tuple-unpacking
arity errors (`ValueError`), `tokens[0]` on an empty list (`IndexError`),
`None.find` (`AttributeError`, the unbound-variable failure), truthiness,
`==` (numeric cross-type equality between `bool` and `int`, identity for
function objects), and classic floor division.

Knowingly out of scope (documented where relevant): float literals/values
(host floating point), Python 2's arbitrary cross-type ordering for the
comparison builtins (type-name/address based; no claim exercises it), and
the memory address printed inside `str()` of a closure.
-/

namespace Tiddly

/-! ### Lexer (source: `tokenize`, lines 124-141) -/

/-- The whitespace set of Python's `str.split()`. -/
def pyIsSpace (c : Char) : Bool :=
  c = ' ' || c = '\t' || c = '\n' || c = '\x0d' || c = Char.ofNat 11 || c = Char.ofNat 12

/-- Source line 125-127: `s.replace('(', ' ( ').replace(')', ' ) ')`. -/
def padParens : List Char → List Char
  | [] => []
  | c :: cs =>
    if c = '(' then ' ' :: '(' :: ' ' :: padParens cs
    else if c = ')' then ' ' :: ')' :: ' ' :: padParens cs
    else c :: padParens cs

/-- Helper for `words`: `cur` is the reversed current run of non-space
characters. -/
def wordsAux : List Char → List Char → List (List Char)
  | [], cur => if cur = [] then [] else [cur.reverse]
  | c :: cs, cur =>
    if pyIsSpace c then
      (if cur = [] then [] else [cur.reverse]) ++ wordsAux cs []
    else wordsAux cs (c :: cur)

/-- Source line 128: `s.split()` — split on whitespace runs, no empty
words. -/
def words (s : List Char) : List (List Char) := wordsAux s []

/-- Source lines 129-140: the word-merging loop of `tokenize`.  The
accumulator state is `none` when `open_parens` is false and
`some str_so_far` when a double-quoted string is being accumulated. -/
def tokLoop : List (List Char) → Option (List Char) → List (List Char)
  | [], _ => []
  | w :: ws, some acc =>
    -- `str_so_far += " %s" % token`
    let acc' := acc ++ ' ' :: w
    if w.getLast? = some '"' then acc' :: tokLoop ws none
    else tokLoop ws (some acc')
  | w :: ws, none =>
    if w.head? = some '"' then tokLoop ws (some w)
    else w :: tokLoop ws none

/-- Source lines 124-141: `tokenize`. -/
def tokenize (s : List Char) : List (List Char) :=
  tokLoop (words (padParens s)) none

/-! ### Numeric atoms (source: `atom`, lines 163-167) -/

def isDig (c : Char) : Bool := '0' ≤ c && c ≤ '9'

def digitVal (c : Char) : Nat := c.toNat - 48

/-- Value of a digit run, most significant first. -/
def digitsVal (s : List Char) : Nat :=
  s.foldl (fun a c => a * 10 + digitVal c) 0

/-- Strip the Python-`int()`/`float()` surrounding whitespace. -/
def stripWs (s : List Char) : List Char :=
  ((s.dropWhile pyIsSpace).reverse.dropWhile pyIsSpace).reverse

/-- Python 2 `int(token)` on the strings our tokenizer can produce:
optional surrounding whitespace, an optional sign, then one or more
decimal digits. -/
def pyIntParse (s : List Char) : Option Int :=
  match stripWs s with
  | '-' :: ds => if ds ≠ [] && ds.all isDig then some (-(digitsVal ds : Int)) else none
  | '+' :: ds => if ds ≠ [] && ds.all isDig then some (digitsVal ds : Int) else none
  | ds => if ds ≠ [] && ds.all isDig then some (digitsVal ds : Int) else none

/-- Does Python 2 `float(token)` accept the string?  (Grammar only: sign,
digits with optional point and exponent, or inf/infinity/nan.)  Used
solely as a side condition that keeps float-valued atoms out of scope;
float values themselves are host floating point and are not modelled. -/
def pyFloatAccepts (s : List Char) : Bool :=
  let t := stripWs s
  let t := match t with
    | '-' :: r => r
    | '+' :: r => r
    | r => r
  let low := t.map Char.toLower
  if low = "inf".data || low = "infinity".data || low = "nan".data then true
  else
    let mant := t.takeWhile (fun c => c ≠ 'e' && c ≠ 'E')
    let rest := t.drop mant.length
    let expOk := match rest with
      | [] => true
      | _ :: r =>
        let r := match r with
          | '-' :: r' => r'
          | '+' :: r' => r'
          | r' => r'
        r ≠ [] && r.all isDig
    let ip := mant.takeWhile isDig
    let fp := mant.drop ip.length
    let mantOk := match fp with
      | [] => ip ≠ []
      | '.' :: fr => (ip ≠ [] || fr ≠ []) && fr.all isDig
      | _ => false
    mantOk && expOk

/-- Decimal digits of `n`, fuel-indexed so that it computes by kernel
reduction; `natChars` supplies sufficient fuel. -/
def natCharsGo : Nat → Nat → List Char
  | 0, _ => []
  | f + 1, n =>
    if n < 10 then [Char.ofNat (48 + n)]
    else natCharsGo f (n / 10) ++ [Char.ofNat (48 + n % 10)]

def natChars (n : Nat) : List Char := natCharsGo (n + 1) n

/-- Python `str` of an integer. -/
def intStr (n : Int) : List Char :=
  if n < 0 then '-' :: natChars n.natAbs else natChars n.natAbs

end Tiddly

namespace Tiddly

/-! ### Runtime values (Python objects reachable in the interpreter) -/

/-- The nine builtin procedures installed by `add_globals`
(lines 27-37). -/
inductive Builtin where
  | add | sub | mul | div | gt | lt | ge | le | eq
  deriving DecidableEq, Repr

/-- A Python object of the interpreter: parse trees and runtime values
are the same objects in the source, so one type covers both.  A closure
(the `lambda *args: ...` of line 96) stores an allocation identity (for
Python's identity-based `==` on function objects), the raw `vars`
object, the body expression and the index of its defining environment.
Floats are not modelled (host floating point); claims touching float
atoms carry side conditions excluding them. -/
inductive PyVal where
  | int : Int → PyVal
  | bool : Bool → PyVal
  | str : List Char → PyVal
  | pynone : PyVal
  | list : List PyVal → PyVal
  | builtin : Builtin → PyVal
  | closure : Nat → PyVal → PyVal → Nat → PyVal
  deriving Repr

/-- Symbol literal helper. -/
def symv (s : String) : PyVal := .str s.data

def PyVal.isList : PyVal → Bool
  | .list _ => true
  | _ => false

/-- Booleans and integers are numerically interchangeable in Python 2
(`True == 1`). -/
def numOf : PyVal → Option Int
  | .int n => some n
  | .bool b => some (if b then 1 else 0)
  | _ => none

mutual
/-- Python `==` on the value universe: numeric cross-type equality for
`int`/`bool`, structural equality for strings and lists, identity for
function objects (closures carry an allocation id; each of the nine
builtins is a single host object). -/
def pyEq : PyVal → PyVal → Bool
  | .list xs, .list ys => pyEqL xs ys
  | .str a, .str b => a = b
  | .pynone, .pynone => true
  | .builtin a, .builtin b => a = b
  | .closure i _ _ _, .closure j _ _ _ => i = j
  | a, b =>
    match numOf a, numOf b with
    | some m, some n => m = n
    | _, _ => false
def pyEqL : List PyVal → List PyVal → Bool
  | [], [] => true
  | a :: as, b :: bs => pyEq a b && pyEqL as bs
  | _, _ => false
end

/-- Python truthiness (`if eval(test, env):`): `False`, `0`, `''`, `[]`
and `None` are falsy; everything else, including every function object,
is truthy. -/
def truthy : PyVal → Bool
  | .bool b => b
  | .int n => n != 0
  | .str s => !s.isEmpty
  | .list xs => !xs.isEmpty
  | .pynone => false
  | _ => true

/-! ### Reader (source: `read_from`/`atom`/`parse`, lines 120-167) -/

/-- Source lines 163-167, `atom`: integers become integers, every other
token is a symbol.  The float branch of the source (`float(token)`) is
not modelled; see `pyFloatAccepts`. -/
def atom (t : List Char) : PyVal :=
  match pyIntParse t with
  | some n => .int n
  | none => .str t

/-- How `read_from` fails: the explicit `SyntaxError` raises of lines
148 and 157, and the `IndexError` that `tokens[0]` raises on line 152
when the token list is exhausted inside an unclosed list.  `fuelOut` is
an embedding artifact and is unreachable with the fuel supplied by
`read_from`. -/
inductive RErr where
  | unexpectedEOF
  | unexpectedClose
  | indexError
  | fuelOut
  deriving DecidableEq, Repr

mutual
/-- Source lines 146-159, `read_from`.  The Python version destructively
pops tokens; here the unconsumed suffix is returned. -/
def readFromF : Nat → List (List Char) → Except RErr (PyVal × List (List Char))
  | _, [] => .error .unexpectedEOF
  | 0, _ :: _ => .error .fuelOut
  | f + 1, t :: ts =>
    if t = ['('] then readListF f [] ts
    else if t = [')'] then .error .unexpectedClose
    else .ok (atom t, ts)
/-- The `while tokens[0] != ')'` loop of lines 151-154; `acc` is `L`.
On an empty token list, `tokens[0]` raises `IndexError`. -/
def readListF : Nat → List PyVal → List (List Char) → Except RErr (PyVal × List (List Char))
  | _, _, [] => .error .indexError
  | 0, _, _ :: _ => .error .fuelOut
  | f + 1, acc, t :: ts =>
    if t = [')'] then .ok (.list acc, ts)
    else
      match readFromF f (t :: ts) with
      | .ok (e, ts') => readListF f (acc ++ [e]) ts'
      | .error err => .error err
end

/-- The reader `read_from` with enough fuel for any outcome other than `fuelOut`
(each consumed token accounts for at most two calls). -/
def read_from (ts : List (List Char)) : Except RErr (PyVal × List (List Char)) :=
  readFromF (2 * ts.length + 2) ts

/-- Source lines 120-121: `parse`.  Leftover tokens are silently
discarded, exactly as the Python function ignores the remains of the
mutated list. -/
def parse (s : List Char) : Except RErr PyVal :=
  (read_from (tokenize s)).map Prod.fst

/-! ### Printer (source: `to_string`, lines 171-173) -/

/-- Python `str()` of each of the nine builtin host functions. -/
def builtinStr : Builtin → List Char
  | .add => "<built-in function add>".data
  | .sub => "<built-in function sub>".data
  | .mul => "<built-in function mul>".data
  | .div => "<built-in function div>".data
  | .gt => "<built-in function gt>".data
  | .lt => "<built-in function lt>".data
  | .ge => "<built-in function ge>".data
  | .le => "<built-in function le>".data
  | .eq => "<built-in function eq>".data

mutual
/-- Source lines 171-173, `to_string`.  Atoms print via `str()`; lists
print as space-joined parenthesised children.  `str()` of a closure
embeds a memory address in the source; the address is unknowable here
and is omitted — no claim prints a closure. -/
def to_string : PyVal → List Char
  | .int n => intStr n
  | .bool b => if b then "True".data else "False".data
  | .str s => s
  | .pynone => "None".data
  | .builtin b => builtinStr b
  | .closure _ _ _ _ => "<function <lambda>>".data
  | .list xs => '(' :: toStringL xs ++ [')']
/-- Python `' '.join(map(to_string, exp))`. -/
def toStringL : List PyVal → List Char
  | [] => []
  | [x] => to_string x
  | x :: y :: rest => to_string x ++ ' ' :: toStringL (y :: rest)
end

end Tiddly

namespace Tiddly

/-! ### Environments (source: `Env`, lines 9-21; `add_globals`, 25-42) -/

/-- One environment: a dict of bindings plus the `outer` reference,
here an index into the arena (`none` for the root). -/
structure Frame where
  bindings : List (PyVal × PyVal)
  outer : Option Nat
  deriving Repr

/-- The arena of all environments created so far, plus a counter used as
the identity of freshly created function objects. -/
structure State where
  frames : List Frame
  nextId : Nat
  deriving Repr

/-- Dict lookup, Python `==` on keys. -/
def lookupBind : List (PyVal × PyVal) → PyVal → Option PyVal
  | [], _ => none
  | (k, v) :: rest, x => if pyEq k x then some v else lookupBind rest x

/-- Dict store: replace the (unique) equal key or append a new entry. -/
def updateBind : List (PyVal × PyVal) → PyVal → PyVal → List (PyVal × PyVal)
  | [], k, v => [(k, v)]
  | (k', v') :: rest, k, v =>
    if pyEq k' k then (k, v) :: rest else (k', v') :: updateBind rest k v

/-- Line 11, `self.update(zip(params, args))`: `zip` truncates to the
shorter sequence and later pairs override equal earlier keys. -/
def mkBindings (ps args : List PyVal) : List (PyVal × PyVal) :=
  (ps.zip args).foldl (fun bs kv => updateBind bs kv.1 kv.2) []

/-- Store into frame `j` of the arena. -/
def setBind (st : State) (j : Nat) (k v : PyVal) : State :=
  match st.frames[j]? with
  | none => st
  | some fr =>
    { st with frames := st.frames.set j { fr with bindings := updateBind fr.bindings k v } }

/-- Lines 15-21, `Env.find`, fuel-indexed: return the innermost frame
index along the outer chain whose dict contains `v`; `none` models the
`AttributeError` that `self.outer.find(var)` raises at the root (outer
is `None`) — the unbound-variable failure. -/
def findGo : Nat → State → Nat → PyVal → Option Nat
  | 0, _, _, _ => none
  | f + 1, st, i, v =>
    match st.frames[i]? with
    | none => none
    | some fr =>
      if (lookupBind fr.bindings v).isSome then some i
      else
        match fr.outer with
        | none => none
        | some j => findGo f st j v

/-- Variable lookup `Env.find` with fuel sufficient for every well-formed arena (outer
indices strictly decrease, so a chain from `i` has at most `i + 1`
frames). -/
def find (st : State) (i : Nat) (v : PyVal) : Option Nat :=
  findGo (i + 1) st i v

/-- The list of frame indices along the outer chain starting at `i`. -/
def chainGo : Nat → State → Nat → List Nat
  | 0, _, _ => []
  | f + 1, st, i =>
    match st.frames[i]? with
    | none => []
    | some fr =>
      i :: (match fr.outer with
            | none => []
            | some j => chainGo f st j)

def chain (st : State) (i : Nat) : List Nat := chainGo (i + 1) st i

/-- Well-formedness of the arena: every outer link points to an earlier
frame.  Every state the interpreter builds satisfies it (the root has no
outer; a closure invocation appends a frame whose outer already
exists). -/
def wfB (st : State) : Bool :=
  (List.range st.frames.length).all fun i =>
    match st.frames[i]? with
    | none => true
    | some fr =>
      match fr.outer with
      | none => true
      | some j => decide (j < i)

/-- Lines 27-38: the root environment seeded by `add_globals`. -/
def globalFrame : Frame :=
  ⟨[(symv "+", .builtin .add), (symv "-", .builtin .sub), (symv "*", .builtin .mul),
    (symv "/", .builtin .div), (symv ">", .builtin .gt), (symv "<", .builtin .lt),
    (symv ">=", .builtin .ge), (symv "<=", .builtin .le), (symv "=", .builtin .eq),
    (symv "True", .bool true), (symv "False", .bool false)], none⟩

def initState : State := ⟨[globalFrame], 0⟩

/-- Index of `global_env` in the arena. -/
def globalEnv : Nat := 0

/-! ### Evaluator (source: `eval`, lines 50-113) -/

/-- How evaluation fails, by the Python exception that would surface:
`unbound` is the `AttributeError` from `Env.find` walking past the root
(the spec's UnboundVariable); `typeErr`, `valueErr` (tuple-unpacking
arity mismatch), `indexErr` (`x[0]` / `car` on an empty sequence),
`zeroDiv`, and `localErr` (`val` unassigned for an empty `begin`).
`fuel` is the embedding artifact for exhausted fuel. -/
inductive Err where
  | unbound
  | typeErr
  | valueErr
  | indexErr
  | zeroDiv
  | localErr
  | fuel
  deriving DecidableEq, Repr

/-- The special-form keywords of the dispatch chain, lines 55-102.
`quote` and `q` share one branch (line 55). -/
inductive Kw where
  | quote | atomQ | eqQ | car | cdr | cons | cond | nullQ
  | ifK | setK | defineK | lambdaK | beginK
  deriving DecidableEq, Repr

/-- Syntactic dispatch on the operator position: `x[0] == 'quote'`, …
compares the head object with a string, which is true exactly for the
equal string object. -/
def keywordOf : PyVal → Option Kw
  | .str s =>
    match s with
    | ['q', 'u', 'o', 't', 'e'] => some .quote
    | ['q'] => some .quote
    | ['a', 't', 'o', 'm', '?'] => some .atomQ
    | ['e', 'q', '?'] => some .eqQ
    | ['c', 'a', 'r'] => some .car
    | ['c', 'd', 'r'] => some .cdr
    | ['c', 'o', 'n', 's'] => some .cons
    | ['c', 'o', 'n', 'd'] => some .cond
    | ['n', 'u', 'l', 'l', '?'] => some .nullQ
    | ['i', 'f'] => some .ifK
    | ['s', 'e', 't', '!'] => some .setK
    | ['d', 'e', 'f', 'i', 'n', 'e'] => some .defineK
    | ['l', 'a', 'm', 'b', 'd', 'a'] => some .lambdaK
    | ['b', 'e', 'g', 'i', 'n'] => some .beginK
    | _ => none
  | _ => none

/-- Lexicographic order on Python 2 strings. -/
def strLt : List Char → List Char → Bool
  | [], [] => false
  | [], _ :: _ => true
  | _ :: _, [] => false
  | a :: as, b :: bs => if a < b then true else if b < a then false else strLt as bs

/-- Python sequence repetition `seq * n` (non-positive `n` gives the
empty sequence). -/
def seqRep {α : Type} (n : Int) (xs : List α) : List α :=
  (List.replicate n.toNat xs).flatten

/-- The host behaviour of the nine builtins on two arguments.
Numbers (`int`/`bool`) use integer arithmetic; `+` concatenates two
strings or two lists; `*` repeats a sequence by a number; `/` is Python
2 floor division; comparisons order numbers numerically and strings
lexicographically (Python 2's arbitrary cross-type ordering, based on
type names and object addresses, is not modelled — no claim exercises
it -- such pairs are mapped to `typeErr`); `=` is Python `==`. -/
def applyBuiltin : Builtin → PyVal → PyVal → Except Err PyVal
  | .add, a, b =>
    match numOf a, numOf b with
    | some m, some n => .ok (.int (m + n))
    | _, _ =>
      match a, b with
      | .str x, .str y => .ok (.str (x ++ y))
      | .list x, .list y => .ok (.list (x ++ y))
      | _, _ => .error .typeErr
  | .sub, a, b =>
    match numOf a, numOf b with
    | some m, some n => .ok (.int (m - n))
    | _, _ => .error .typeErr
  | .mul, a, b =>
    match numOf a, numOf b with
    | some m, some n => .ok (.int (m * n))
    | some m, none =>
      match b with
      | .str y => .ok (.str (seqRep m y))
      | .list y => .ok (.list (seqRep m y))
      | _ => .error .typeErr
    | none, some n =>
      match a with
      | .str x => .ok (.str (seqRep n x))
      | .list x => .ok (.list (seqRep n x))
      | _ => .error .typeErr
    | none, none => .error .typeErr
  | .div, a, b =>
    match numOf a, numOf b with
    | some m, some n => if n == 0 then .error .zeroDiv else .ok (.int (Int.fdiv m n))
    | _, _ => .error .typeErr
  | .gt, a, b =>
    match numOf a, numOf b with
    | some m, some n => .ok (.bool (decide (n < m)))
    | _, _ =>
      match a, b with
      | .str x, .str y => .ok (.bool (strLt y x))
      | _, _ => .error .typeErr
  | .lt, a, b =>
    match numOf a, numOf b with
    | some m, some n => .ok (.bool (decide (m < n)))
    | _, _ =>
      match a, b with
      | .str x, .str y => .ok (.bool (strLt x y))
      | _, _ => .error .typeErr
  | .ge, a, b =>
    match numOf a, numOf b with
    | some m, some n => .ok (.bool (decide (n ≤ m)))
    | _, _ =>
      match a, b with
      | .str x, .str y => .ok (.bool !strLt x y)
      | _, _ => .error .typeErr
  | .le, a, b =>
    match numOf a, numOf b with
    | some m, some n => .ok (.bool (decide (m ≤ n)))
    | _, _ =>
      match a, b with
      | .str x, .str y => .ok (.bool !strLt y x)
      | _, _ => .error .typeErr
  | .eq, a, b => .ok (.bool (pyEq a b))

/-- What Python's `zip` iterates over for the stored `vars` object of a
closure: a list yields its elements, a string its one-character
substrings; anything else is not iterable (`TypeError`). -/
def pyIterate : PyVal → Option (List PyVal)
  | .list xs => some xs
  | .str s => some (s.map fun c => .str [c])
  | _ => none

/-- Unpacking `(p, e) = clause` for a `cond` clause: a two-element list
or a two-character string succeeds; other lists/strings raise
`ValueError`, non-iterables `TypeError`. -/
def unpack2 : PyVal → Except Err (PyVal × PyVal)
  | .list [p, e] => .ok (p, e)
  | .list _ => .error .valueErr
  | .str [c1, c2] => .ok (.str [c1], .str [c2])
  | .str _ => .error .valueErr
  | _ => .error .typeErr

end Tiddly

namespace Tiddly

mutual
/-- Source lines 50-113, `eval`, fuel-indexed (one unit per call of any
function in this block).  A `Symbol` (string) is a variable reference
(`env.find(x)[x]`, line 52); any other non-list is a constant literal
(line 54); a list dispatches on its head (lines 55-113).  `define` and
`set!` return Python `None`. -/
def evalF : Nat → PyVal → Nat → State → Except Err (PyVal × State)
  | 0, _, _, _ => .error .fuel
  | _ + 1, .str s, env, st =>
    match find st env (.str s) with
    | none => .error .unbound
    | some j =>
      match st.frames[j]? with
      | none => .error .unbound
      | some fr =>
        match lookupBind fr.bindings (.str s) with
        | some v => .ok (v, st)
        | none => .error .unbound
  | f + 1, .list items, env, st => evalList f items env st
  | _ + 1, v, _, st => .ok (v, st)
termination_by structural f _x _env _st => f

/-- Dispatch for a list expression: `x[0]` on an empty list raises
`IndexError`; a special-form head (lines 55-102) goes to `evalSpecial`,
anything else is a procedure application (lines 104-113). -/
def evalList : Nat → List PyVal → Nat → State → Except Err (PyVal × State)
  | 0, _, _, _ => .error .fuel
  | f + 1, items, env, st =>
    match items with
    | [] => .error .indexErr
    | h :: _ =>
      match keywordOf h with
      | some kw => evalSpecial f kw items env st
      | none => evalApp f items env st
termination_by structural f _items _env _st => f

/-- The special-form branches of `eval` (lines 55-102).  Tuple
unpacking such as `(_, exp) = x` demands the exact length and raises
`ValueError` otherwise. -/
def evalSpecial : Nat → Kw → List PyVal → Nat → State → Except Err (PyVal × State)
  | 0, _, _, _, _ => .error .fuel
  | f + 1, kw, items, env, st =>
    match kw, items with
    | .quote, [_, exp] => .ok (exp, st)
    | .quote, _ => .error .valueErr
    | .atomQ, [_, exp] =>
      match evalF f exp env st with
      | .ok (v, st') => .ok (.bool !v.isList, st')
      | .error e => .error e
    | .atomQ, _ => .error .valueErr
    | .eqQ, [_, e1, e2] =>
      match evalF f e1 env st with
      | .error e => .error e
      | .ok (v1, st1) =>
        match evalF f e2 env st1 with
        | .error e => .error e
        | .ok (v2, st2) => .ok (.bool (!v1.isList && pyEq v1 v2), st2)
    | .eqQ, _ => .error .valueErr
    | .car, [_, exp] =>
      -- `eval(exp, env)[0]`: indexing works on lists and strings
      match evalF f exp env st with
      | .error e => .error e
      | .ok (v, st') =>
        match v with
        | .list (a :: _) => .ok (a, st')
        | .list [] => .error .indexErr
        | .str (c :: _) => .ok (.str [c], st')
        | .str [] => .error .indexErr
        | _ => .error .typeErr
    | .car, _ => .error .valueErr
    | .cdr, [_, exp] =>
      -- `eval(exp, env)[1:]`: slicing works on lists and strings
      match evalF f exp env st with
      | .error e => .error e
      | .ok (v, st') =>
        match v with
        | .list xs => .ok (.list xs.tail, st')
        | .str s => .ok (.str s.tail, st')
        | _ => .error .typeErr
    | .cdr, _ => .error .valueErr
    | .cons, [_, e1, e2] =>
      -- `[eval(exp1, env)] + eval(exp2, env)`
      match evalF f e1 env st with
      | .error e => .error e
      | .ok (v1, st1) =>
        match evalF f e2 env st1 with
        | .error e => .error e
        | .ok (v2, st2) =>
          match v2 with
          | .list ys => .ok (.list (v1 :: ys), st2)
          | _ => .error .typeErr
    | .cons, _ => .error .valueErr
    | .cond, _ :: clauses => evalCond f clauses env st
    | .cond, [] => .error .indexErr
    | .nullQ, [_, exp] =>
      match evalF f exp env st with
      | .ok (v, st') => .ok (.bool (pyEq v (.list [])), st')
      | .error e => .error e
    | .nullQ, _ => .error .valueErr
    | .ifK, [_, test, conseq, alt] =>
      match evalF f test env st with
      | .error e => .error e
      | .ok (tv, st') => evalF f (if truthy tv then conseq else alt) env st'
    | .ifK, _ => .error .valueErr
    | .setK, [_, var, exp] =>
      -- Python evaluates the right-hand side of the assignment on line
      -- 90 before the target `env.find(var)[var]`
      match evalF f exp env st with
      | .error e => .error e
      | .ok (val, st1) =>
        if var.isList then .error .typeErr
        else
          match find st1 env var with
          | none => .error .unbound
          | some j => .ok (.pynone, setBind st1 j var val)
    | .setK, _ => .error .valueErr
    | .defineK, [_, var, exp] =>
      match evalF f exp env st with
      | .error e => .error e
      | .ok (val, st1) =>
        if var.isList then .error .typeErr
        else .ok (.pynone, setBind st1 env var val)
    | .defineK, _ => .error .valueErr
    | .lambdaK, [_, vars, exp] =>
      .ok (.closure st.nextId vars exp env, { st with nextId := st.nextId + 1 })
    | .lambdaK, _ => .error .valueErr
    | .beginK, _ :: rest => evalBegin f rest env st
    | .beginK, [] => .error .indexErr
termination_by structural f _kw _items _env _st => f

/-- The `for (p, e) in x[1:]` loop of `cond` (lines 77-80); no matching
clause returns the empty list. -/
def evalCond : Nat → List PyVal → Nat → State → Except Err (PyVal × State)
  | 0, _, _, _ => .error .fuel
  | _ + 1, [], _, st => .ok (.list [], st)
  | f + 1, clause :: rest, env, st =>
    match unpack2 clause with
    | .error e => .error e
    | .ok (p, e) =>
      match evalF f p env st with
      | .error err => .error err
      | .ok (pv, st') =>
        if truthy pv then evalF f e env st' else evalCond f rest env st'
termination_by structural f _cs _env _st => f

/-- The `for exp in x[1:]` loop of `begin` (lines 99-102); with no
sub-expression, `return val` reads an unassigned local. -/
def evalBegin : Nat → List PyVal → Nat → State → Except Err (PyVal × State)
  | 0, _, _, _ => .error .fuel
  | _ + 1, [], _, _ => .error .localErr
  | f + 1, [e], env, st => evalF f e env st
  | f + 1, e :: rest, env, st =>
    match evalF f e env st with
    | .error err => .error err
    | .ok (_, st') => evalBegin f rest env st'
termination_by structural f _es _env _st => f

/-- Procedure application, lines 104-113: evaluate every element left to
right, pop the procedure, prepend `0` to a single argument of `+`/`-`
(unary sign), then fold pairwise. -/
def evalApp : Nat → List PyVal → Nat → State → Except Err (PyVal × State)
  | 0, _, _, _ => .error .fuel
  | f + 1, items, env, st =>
    match evalArgs f items env st with
    | .error e => .error e
    | .ok ([], _) => .error .indexErr
    | .ok (proc :: args, st') =>
      let args :=
        if args.length == 1 && (pyEq proc (.builtin .add) || pyEq proc (.builtin .sub))
        then .int 0 :: args else args
      foldApply f proc args st'
termination_by structural f _items _env _st => f

/-- Source `[eval(exp, env) for exp in x]` (line 105), threading the state left
to right. -/
def evalArgs : Nat → List PyVal → Nat → State → Except Err (List PyVal × State)
  | 0, _, _, _ => .error .fuel
  | _ + 1, [], _, st => .ok ([], st)
  | f + 1, e :: es, env, st =>
    match evalF f e env st with
    | .error err => .error err
    | .ok (v, st') =>
      match evalArgs f es env st' with
      | .error err => .error err
      | .ok (vs, st'') => .ok (v :: vs, st'')
termination_by structural f _es _env _st => f

/-- The `while len(exps) > 2` loop plus the final `proc(*exps)` (lines
109-113).  With at least two values this is a left fold of `proc` over
the list; with zero or one value it is a direct call. -/
def foldApply : Nat → PyVal → List PyVal → State → Except Err (PyVal × State)
  | 0, _, _, _ => .error .fuel
  | f + 1, proc, a :: b :: rest, st => foldPairs f proc a (b :: rest) st
  | f + 1, proc, exps, st => applyProc f proc exps st
termination_by structural f _p _a _st => f

/-- Left fold of pairwise applications: `accv` is `exps[0]`. -/
def foldPairs : Nat → PyVal → PyVal → List PyVal → State → Except Err (PyVal × State)
  | 0, _, _, _, _ => .error .fuel
  | _ + 1, _, accv, [], st => .ok (accv, st)
  | f + 1, proc, accv, b :: rest, st =>
    match applyProc f proc [accv, b] st with
    | .error e => .error e
    | .ok (v, st') => foldPairs f proc v rest st'
termination_by structural f _p _a _bs _st => f

/-- One host-level call `proc(*args)`.  A builtin demands exactly two
arguments; a closure (line 96, `lambda *args: eval(exp, Env(vars, args,
env))`) allocates a fresh frame binding its parameters to the call's
arguments, with outer set to the closure's captured environment — the
caller's environment is not even passed in — and evaluates the body
there.  Calling a non-procedure raises `TypeError`. -/
def applyProc : Nat → PyVal → List PyVal → State → Except Err (PyVal × State)
  | 0, _, _, _ => .error .fuel
  | f + 1, proc, args, st =>
    match proc with
    | .builtin b =>
      match args with
      | [x, y] =>
        match applyBuiltin b x y with
        | .ok v => .ok (v, st)
        | .error e => .error e
      | _ => .error .typeErr
    | .closure _ vars body envIdx =>
      match pyIterate vars with
      | none => .error .typeErr
      | some ps =>
        if ps.any PyVal.isList then .error .typeErr
        else
          evalF f body st.frames.length
            { st with frames := st.frames ++ [⟨mkBindings ps args, some envIdx⟩] }
    | _ => .error .typeErr
termination_by structural f _p _a _st => f
end

end Tiddly

namespace Tiddly

/-! ### Helper facts about the dispatch -/

@[simp] theorem keywordOf_quote : keywordOf (symv "quote") = some Kw.quote := rfl
@[simp] theorem keywordOf_q : keywordOf (symv "q") = some Kw.quote := rfl
@[simp] theorem keywordOf_atomQ : keywordOf (symv "atom?") = some Kw.atomQ := rfl
@[simp] theorem keywordOf_eqQ : keywordOf (symv "eq?") = some Kw.eqQ := rfl
@[simp] theorem keywordOf_car : keywordOf (symv "car") = some Kw.car := rfl
@[simp] theorem keywordOf_cdr : keywordOf (symv "cdr") = some Kw.cdr := rfl
@[simp] theorem keywordOf_cons : keywordOf (symv "cons") = some Kw.cons := rfl
@[simp] theorem keywordOf_cond : keywordOf (symv "cond") = some Kw.cond := rfl
@[simp] theorem keywordOf_nullQ : keywordOf (symv "null?") = some Kw.nullQ := rfl
@[simp] theorem keywordOf_ifK : keywordOf (symv "if") = some Kw.ifK := rfl
@[simp] theorem keywordOf_setK : keywordOf (symv "set!") = some Kw.setK := rfl
@[simp] theorem keywordOf_defineK : keywordOf (symv "define") = some Kw.defineK := rfl
@[simp] theorem keywordOf_lambdaK : keywordOf (symv "lambda") = some Kw.lambdaK := rfl
@[simp] theorem keywordOf_beginK : keywordOf (symv "begin") = some Kw.beginK := rfl

/-! ### C3: semantics of `eq?` -/

/-- C3.  For every pair of expressions `e1`, `e2` and environment,
evaluating `(eq? e1 e2)` evaluates `e1` then `e2` (threading the state)
and returns the boolean that is true iff neither resulting value is a
list and the two values are Python-equal, false in every other case
(source lines 61-65). -/
theorem eqq_evaluates_both_and_compares (f env : Nat) (e1 e2 v1 v2 : PyVal)
    (st st1 st2 : State)
    (h1 : evalF f e1 env st = .ok (v1, st1))
    (h2 : evalF f e2 env st1 = .ok (v2, st2)) :
    evalF (f + 3) (.list [symv "eq?", e1, e2]) env st =
      .ok (.bool (!v1.isList && pyEq v1 v2), st2) := by
  simp only [evalF, evalList, keywordOf_eqQ, evalSpecial, h1, h2]

/-- Witness for C3 at concrete inputs: `(eq? 1 1)` is `True`,
via the theorem applied at `e1 = e2 = 1`. -/
theorem eqq_evaluates_both_and_compares_witness :
    evalF 4 (.list [symv "eq?", .int 1, .int 1]) globalEnv initState =
      .ok (.bool (!(PyVal.int 1).isList && pyEq (.int 1) (.int 1)), initState) :=
  eqq_evaluates_both_and_compares 1 globalEnv (.int 1) (.int 1) (.int 1) (.int 1)
    initState initState initState rfl rfl

/-! ### C7: semantics of `if` -/

/-- C7.  For every `(if test conseq alt)` form, `eval` evaluates the
test and then evaluates exactly one branch — `conseq` when the test
value is truthy, `alt` otherwise — in the state left by the test; the
result and final state are those of the selected branch alone, so the
unselected branch is never evaluated and none of its effects occur
(source lines 84-87). -/
theorem if_evaluates_one_branch (f env : Nat) (test conseq alt tv : PyVal)
    (st st1 : State)
    (h : evalF f test env st = .ok (tv, st1)) :
    evalF (f + 3) (.list [symv "if", test, conseq, alt]) env st =
      evalF f (if truthy tv then conseq else alt) env st1 := by
  simp only [evalF, evalList, keywordOf_ifK, evalSpecial, h]

/-- Witness for C7: `(if (< 1 2) 1 (define x 99))` evaluates only the
`1` branch; the `define` in the alternate never runs and the state is
untouched. -/
theorem if_evaluates_one_branch_witness :
    evalF 10 (.list [symv "if", .list [symv "<", .int 1, .int 2], .int 1,
        .list [symv "define", symv "x", .int 99]]) globalEnv initState =
      evalF 7 (if truthy (.bool true) then .int 1
               else .list [symv "define", symv "x", .int 99]) globalEnv initState ∧
    evalF 10 (.list [symv "if", .list [symv "<", .int 1, .int 2], .int 1,
        .list [symv "define", symv "x", .int 99]]) globalEnv initState =
      .ok (.int 1, initState) :=
  ⟨if_evaluates_one_branch 7 globalEnv (.list [symv "<", .int 1, .int 2]) (.int 1)
      (.list [symv "define", symv "x", .int 99]) (.bool true) initState initState rfl,
   by
    have h := if_evaluates_one_branch 7 globalEnv (.list [symv "<", .int 1, .int 2])
      (.int 1) (.list [symv "define", symv "x", .int 99]) (.bool true)
      initState initState rfl
    exact h.trans (by rfl)⟩

end Tiddly

namespace Tiddly

/-! ### C6: pairwise left fold of procedure application -/

/-- C6.  A procedure application evaluates operator and operands left to
right and, with more than two arguments, combines them by a pairwise
left fold (`while len(exps) > 2`, lines 109-113): the first conjunct
shows the application hands the argument values to `foldApply`
unchanged (the unary `+`/`-` zero-prepend cannot fire on more than one
argument); the second shows the fold on four builtin arguments is
`op(op(op(a,b),c),d)`; the third computes `(* 2 3 4) == 24`. -/
theorem app_folds_pairwise :
    (∀ (f env : Nat) (h : PyVal) (rest : List PyVal) (proc : PyVal)
       (args : List PyVal) (st st' : State),
       keywordOf h = none →
       evalArgs f (h :: rest) env st = .ok (proc :: args, st') →
       2 < args.length →
       evalF (f + 3) (.list (h :: rest)) env st = foldApply f proc args st')
    ∧ (∀ (f : Nat) (b : Builtin) (a a2 c d r1 r2 r3 : PyVal) (st : State),
       applyBuiltin b a a2 = .ok r1 →
       applyBuiltin b r1 c = .ok r2 →
       applyBuiltin b r2 d = .ok r3 →
       foldApply (f + 5) (.builtin b) [a, a2, c, d] st = .ok (r3, st))
    ∧ evalF 9 (.list [symv "*", .int 2, .int 3, .int 4]) globalEnv initState =
        .ok (.int 24, initState) := by
  refine ⟨?_, ?_, rfl⟩
  · intro f env h rest proc args st st' hkw hargs hlen
    have h1 : (args.length == 1) = false := by
      rw [beq_eq_false_iff_ne]
      omega
    simp only [evalF, evalList, hkw, evalApp, hargs, h1, Bool.false_and, if_neg,
      Bool.false_eq_true, not_false_eq_true]
  · intro f b a a2 c d r1 r2 r3 st h1 h2 h3
    simp only [foldApply, foldPairs, applyProc, h1, h2, h3]

/-- Witness for C6: the fold shape at `(* 2 3 4)` (first conjunct,
giving `foldApply` on `[2, 3, 4]`) and the four-argument chain
`mul(mul(mul(2,3),4),5) = 120` (second conjunct). -/
theorem app_folds_pairwise_witness :
    evalF 8 (.list [symv "*", .int 2, .int 3, .int 4]) globalEnv initState =
      foldApply 5 (.builtin .mul) [.int 2, .int 3, .int 4] initState ∧
    foldApply 5 (.builtin .mul) [.int 2, .int 3, .int 4, .int 5] initState =
      .ok (.int 120, initState) :=
  ⟨app_folds_pairwise.1 5 globalEnv (symv "*") [.int 2, .int 3, .int 4]
      (.builtin .mul) [.int 2, .int 3, .int 4] initState initState rfl rfl
      (by simp),
   app_folds_pairwise.2.1 0 .mul (.int 2) (.int 3) (.int 4) (.int 5)
      (.int 6) (.int 24) (.int 120) initState rfl rfl rfl⟩

end Tiddly

namespace Tiddly

/-! ### C1: closure application allocates a frame over the captured
environment -/

theorem pyEq_str (a b : List Char) : pyEq (.str a) (.str b) = decide (a = b) := rfl

/-- Storing a key absent from the dict appends it. -/
theorem updateBind_absent (bs : List (PyVal × PyVal)) (k v : PyVal)
    (h : ∀ q ∈ bs, pyEq q.1 k = false) : updateBind bs k v = bs ++ [(k, v)] := by
  induction bs with
  | nil => rfl
  | cons q rest ih =>
    obtain ⟨k', v'⟩ := q
    have hk : pyEq k' k = false := h (k', v') (by simp)
    simp only [updateBind, hk, Bool.false_eq_true, if_neg, not_false_eq_true,
      List.cons_append, List.cons.injEq, true_and]
    exact ih fun q hq => h q (List.mem_cons_of_mem _ hq)

/-- Folding `updateBind` over pairwise-distinct fresh keys just appends
the pairs in order. -/
theorem foldl_updateBind_disjoint (pairs : List (PyVal × PyVal)) :
    ∀ acc, (∀ q ∈ acc, ∀ p ∈ pairs, pyEq q.1 p.1 = false) →
    pairs.Pairwise (fun p q => pyEq p.1 q.1 = false) →
    pairs.foldl (fun bs kv => updateBind bs kv.1 kv.2) acc = acc ++ pairs := by
  induction pairs with
  | nil => intro acc _ _; simp
  | cons p rest ih =>
    intro acc hacc hpw
    obtain ⟨k, v⟩ := p
    rw [List.foldl_cons]
    rw [updateBind_absent acc k v (fun q hq => hacc q hq (k, v) (by simp))]
    rw [ih (acc ++ [(k, v)]) ?_ (List.pairwise_cons.mp hpw).2]
    · simp
    · intro q hq p' hp'
      rcases List.mem_append.mp hq with hmem | hmem
      · exact hacc q hmem p' (List.mem_cons_of_mem _ hp')
      · have : q = (k, v) := by simpa using hmem
        subst this
        exact (List.pairwise_cons.mp hpw).1 p' hp'

/-- Zipping inherits pairwise distinctness of the keys. -/
theorem pairwise_zip_fst {R : PyVal → PyVal → Prop} :
    ∀ (l1 : List PyVal) (l2 : List PyVal), l1.Pairwise R →
      (l1.zip l2).Pairwise fun p q => R p.1 q.1 := by
  intro l1
  induction l1 with
  | nil => intro l2 _; simp
  | cons x xs ih =>
    intro l2 hpw
    cases l2 with
    | nil => simp
    | cons y ys =>
      rw [List.zip_cons_cons]
      refine List.pairwise_cons.mpr ⟨?_, ih ys (List.pairwise_cons.mp hpw).2⟩
      intro p hp
      exact (List.pairwise_cons.mp hpw).1 p.1 (List.of_mem_zip hp).1

/-- With distinct parameter names, `Env.__init__`'s
`self.update(zip(params, args))` produces exactly the positional
association list `zip params args`. -/
theorem mkBindings_nodup_zip (syms : List (List Char)) (args : List PyVal)
    (hnd : syms.Nodup) :
    mkBindings (syms.map PyVal.str) args = (syms.map PyVal.str).zip args := by
  unfold mkBindings
  rw [foldl_updateBind_disjoint _ [] (by simp)]
  · simp
  · refine @pairwise_zip_fst (fun a b => pyEq a b = false) _ _ ?_
    rw [List.pairwise_map]
    refine hnd.imp ?_
    intro a b hab
    rw [pyEq_str, decide_eq_false_iff_not]
    exact hab

/-- C1.  Whenever `eval` invokes a closure, it allocates exactly one new
frame whose dict is `zip(params, args)` — the parameter symbols bound
positionally to the argument values — and whose outer link is the
closure's captured defining environment `envIdx` (the caller's
environment is not even an argument of `applyProc`), and then evaluates
the closure's body in that frame (source line 96 with lines 9-12);
with distinct parameter names the dict is literally the positional
association list; and `((lambda (x y) (+ x y)) 3 4)` parses and
evaluates to `7`, the allocated frame being
`{x: 3, y: 4}` with outer the global environment. -/
theorem closure_app_binds_positionally_in_captured_env :
    (∀ (f i envIdx : Nat) (vars body : PyVal) (ps args : List PyVal) (st : State),
       vars = .list ps →
       ps.any PyVal.isList = false →
       applyProc (f + 1) (.closure i vars body envIdx) args st =
         evalF f body st.frames.length
           ⟨st.frames ++ [⟨mkBindings ps args, some envIdx⟩], st.nextId⟩)
    ∧ (∀ (syms : List (List Char)) (args : List PyVal), syms.Nodup →
       mkBindings (syms.map PyVal.str) args = (syms.map PyVal.str).zip args)
    ∧ (∃ e st', parse "((lambda (x y) (+ x y)) 3 4)".data = .ok e ∧
       evalF 64 e globalEnv initState = .ok (.int 7, st') ∧
       st'.frames[1]? = some ⟨[(symv "x", .int 3), (symv "y", .int 4)], some globalEnv⟩) := by
  refine ⟨?_, mkBindings_nodup_zip, ?_⟩
  · intro f i envIdx vars body ps args st hvars hps
    subst hvars
    simp only [applyProc, pyIterate, hps, Bool.false_eq_true, if_neg, not_false_eq_true]
  · exact ⟨_, _, rfl, rfl, rfl⟩

/-- Witness for C1: the first conjunct applied to the concrete closure
`(lambda (x) x)` called with `5`, plus the second at `[x, y]`. -/
theorem closure_app_binds_positionally_in_captured_env_witness :
    applyProc 4 (.closure 0 (.list [symv "x"]) (symv "x") 0) [.int 5] initState =
      evalF 3 (symv "x") 1 ⟨[globalFrame, ⟨[(symv "x", .int 5)], some 0⟩], 0⟩ ∧
    mkBindings [symv "x", symv "y"] [.int 3, .int 4] =
      [(symv "x", .int 3), (symv "y", .int 4)] :=
  ⟨closure_app_binds_positionally_in_captured_env.1 3 0 0 (.list [symv "x"])
      (symv "x") [symv "x"] [.int 5] initState rfl rfl,
   by
    have h := closure_app_binds_positionally_in_captured_env.2.1
      ["x".data, "y".data] [.int 3, .int 4] (by decide)
    simpa using h⟩

end Tiddly

namespace Tiddly

/-! ### C9: special-form dispatch precedes environment lookup -/

/-- C9.  A list whose head is a special-form keyword is dispatched
purely syntactically (`keywordOf` inspects only the head object, never
an environment), so a user binding of the keyword's name cannot change
how such a list evaluates: after `(define if 5)` the form
`(if False 1 2)` still evaluates to `2`, exactly as in the untouched
global environment, while the bare symbol `if` by itself now evaluates
to the user's `5` (source lines 50-104, dispatch chain before the
application fallback; lines 91-93 for the define). -/
theorem special_forms_dispatch_before_lookup :
    (∀ (h : PyVal) (kw : Kw), keywordOf h = some kw →
       ∀ (f env : Nat) (rest : List PyVal) (st : State),
       evalF (f + 2) (.list (h :: rest)) env st = evalSpecial f kw (h :: rest) env st)
    ∧ (∀ k ∈ ["quote", "q", "atom?", "eq?", "car", "cdr", "cons", "cond",
              "null?", "if", "set!", "define", "lambda", "begin"],
       (keywordOf (symv k)).isSome = true)
    ∧ (evalF 32 (.list [symv "define", symv "if", .int 5]) globalEnv initState =
        .ok (.pynone, ⟨[⟨globalFrame.bindings ++ [(symv "if", .int 5)], none⟩], 0⟩))
    ∧ (evalF 9 (.list [symv "if", symv "False", .int 1, .int 2]) globalEnv
        ⟨[⟨globalFrame.bindings ++ [(symv "if", .int 5)], none⟩], 0⟩ =
        .ok (.int 2, ⟨[⟨globalFrame.bindings ++ [(symv "if", .int 5)], none⟩], 0⟩))
    ∧ (evalF 9 (.list [symv "if", symv "False", .int 1, .int 2]) globalEnv initState =
        .ok (.int 2, initState))
    ∧ (evalF 2 (symv "if") globalEnv
        ⟨[⟨globalFrame.bindings ++ [(symv "if", .int 5)], none⟩], 0⟩ =
        .ok (.int 5, ⟨[⟨globalFrame.bindings ++ [(symv "if", .int 5)], none⟩], 0⟩)) := by
  refine ⟨?_, ?_, rfl, rfl, rfl, rfl⟩
  · intro h kw hkw f env rest st
    simp only [evalF, evalList, hkw]
  · intro k hk
    fin_cases hk <;> rfl

/-- Witness for C9: the dispatch equation applied at the concrete head
`eq?`, and keyword recognition applied at `if`. -/
theorem special_forms_dispatch_before_lookup_witness :
    evalF 3 (.list [symv "eq?", .int 1, .int 2]) globalEnv initState =
      evalSpecial 1 Kw.eqQ [symv "eq?", .int 1, .int 2] globalEnv initState ∧
    (keywordOf (symv "if")).isSome = true :=
  ⟨special_forms_dispatch_before_lookup.1 (symv "eq?") Kw.eqQ rfl 1 globalEnv
      [.int 1, .int 2] initState,
   special_forms_dispatch_before_lookup.2.1 "if" (by simp)⟩

end Tiddly

namespace Tiddly

/-! ### C8: lookup and mutation walk the outer chain -/

/-- Does frame `j` of the arena bind `v`? -/
def bindsAt (st : State) (j : Nat) (v : PyVal) : Bool :=
  match st.frames[j]? with
  | some fr => (lookupBind fr.bindings v).isSome
  | none => false

/-- Fuel-uniform correspondence between `findGo` and `chainGo`: a hit is
the first chain frame that binds the symbol, a miss means no chain frame
binds it. -/
theorem findGo_chainGo (v : PyVal) (st : State) :
    ∀ (fl i : Nat),
      (∀ j, findGo fl st i v = some j →
        ∃ pre post, chainGo fl st i = pre ++ j :: post ∧
          (∀ k ∈ pre, bindsAt st k v = false) ∧ bindsAt st j v = true)
      ∧ (findGo fl st i v = none → ∀ j ∈ chainGo fl st i, bindsAt st j v = false) := by
  intro fl
  induction fl with
  | zero =>
    intro i
    refine ⟨fun j h => absurd h (by simp [findGo]), fun _ j hj => absurd hj (by simp [chainGo])⟩
  | succ fl ih =>
    intro i
    constructor
    · intro j hj
      cases hfr : st.frames[i]? with
      | none =>
        simp only [findGo, hfr] at hj
        exact Option.noConfusion hj
      | some fr =>
        simp only [findGo, hfr] at hj
        by_cases hlk : (lookupBind fr.bindings v).isSome
        · rw [if_pos hlk] at hj
          cases hj
          have hch : chainGo (fl + 1) st i =
              [] ++ i :: (match fr.outer with
                          | none => []
                          | some o => chainGo fl st o) := by
            simp only [chainGo, hfr, List.nil_append]
          exact ⟨[], _, hch, by simp, by simp [bindsAt, hfr, hlk]⟩
        · rw [if_neg hlk] at hj
          cases hout : fr.outer with
          | none => rw [hout] at hj; cases hj
          | some o =>
            rw [hout] at hj
            obtain ⟨pre, post, hchain, hpre, hj'⟩ := (ih o).1 j hj
            refine ⟨i :: pre, post, ?_, ?_, hj'⟩
            · simp only [chainGo, hfr, hout, hchain, List.cons_append]
            · intro k hk
              rcases List.mem_cons.mp hk with hk | hk
              · subst hk
                simp only [bindsAt, hfr]
                simpa using hlk
              · exact hpre k hk
    · intro hnone j hj
      cases hfr : st.frames[i]? with
      | none =>
        simp only [chainGo, hfr, List.not_mem_nil] at hj
      | some fr =>
        simp only [findGo, hfr] at hnone
        simp only [chainGo, hfr] at hj
        by_cases hlk : (lookupBind fr.bindings v).isSome
        · rw [if_pos hlk] at hnone; cases hnone
        · rw [if_neg hlk] at hnone
          rcases List.mem_cons.mp hj with hk | hk
          · subst hk
            simp only [bindsAt, hfr]
            simpa using hlk
          · cases hout : fr.outer with
            | none => rw [hout] at hk; simp at hk
            | some o =>
              rw [hout] at hnone hk
              exact (ih o).2 hnone j hk

end Tiddly

namespace Tiddly

/-- Unfolding `wfB`: outer links decrease. -/
theorem wfB_outer_lt (st : State) (hwf : wfB st = true) {i : Nat} {fr : Frame}
    {o : Nat} (hfr : st.frames[i]? = some fr) (hout : fr.outer = some o) : o < i := by
  have hilen : i < st.frames.length := by
    rcases List.getElem?_eq_some_iff.mp hfr with ⟨h, _⟩
    exact h
  have := (List.all_eq_true.mp hwf) i (List.mem_range.mpr hilen)
  simp only [hfr, hout] at this
  exact of_decide_eq_true this

/-- In a well-formed arena the chain from a valid frame reaches a root
frame (one with no outer): the walk is over the entire chain. -/
theorem wf_chain_root (st : State) (hwf : wfB st = true) :
    ∀ (fl i : Nat), i < fl → i < st.frames.length →
      ∃ j, j ∈ chainGo fl st i ∧ ∃ fr, st.frames[j]? = some fr ∧ fr.outer = none := by
  intro fl
  induction fl with
  | zero => intro i h; omega
  | succ fl ih =>
    intro i hif hilen
    have hfr : st.frames[i]? = some (st.frames.get ⟨i, hilen⟩) := by
      simp [List.getElem?_eq_getElem hilen]
    set fr := st.frames.get ⟨i, hilen⟩ with hfrdef
    cases hout : fr.outer with
    | none => exact ⟨i, by simp [chainGo, hfr, hout], fr, hfr, hout⟩
    | some o =>
      have holt : o < i := wfB_outer_lt st hwf hfr hout
      obtain ⟨j, hj, exfr⟩ := ih o (by omega) (by omega)
      refine ⟨j, ?_, exfr⟩
      simp only [chainGo, hfr, hout]
      exact List.mem_cons_of_mem _ hj

/-- C8.  Symbol lookup and `set!` walk the outer chain (source lines
15-21, 50-52, 88-90): a `find` hit is the first (innermost) chain frame
binding the symbol; a miss means no frame in the chain binds it, and in
a well-formed arena the chain walked is the entire chain down to the
root; a missed lookup makes evaluation of the symbol fail with the
unbound-variable error, a hit returns the stored value; `set!`
evaluates its expression and then overwrites the symbol in exactly the
frame `find` returned, or fails unbound when no frame binds it. -/
theorem lookup_and_set_walk_outer_chain :
    (∀ (st : State) (i : Nat) (v : PyVal) (j : Nat),
       find st i v = some j →
       ∃ pre post, chain st i = pre ++ j :: post ∧
         (∀ k ∈ pre, bindsAt st k v = false) ∧ bindsAt st j v = true)
    ∧ (∀ (st : State) (i : Nat) (v : PyVal),
       find st i v = none → ∀ j ∈ chain st i, bindsAt st j v = false)
    ∧ (∀ (st : State) (i : Nat), wfB st = true → i < st.frames.length →
       ∃ j, j ∈ chain st i ∧ ∃ fr, st.frames[j]? = some fr ∧ fr.outer = none)
    ∧ (∀ (f env : Nat) (s : List Char) (st : State),
       find st env (.str s) = none →
       evalF (f + 1) (.str s) env st = .error .unbound)
    ∧ (∀ (f env : Nat) (s : List Char) (st : State) (j : Nat) (fr : Frame) (v : PyVal),
       find st env (.str s) = some j →
       st.frames[j]? = some fr →
       lookupBind fr.bindings (.str s) = some v →
       evalF (f + 1) (.str s) env st = .ok (v, st))
    ∧ (∀ (f env : Nat) (s : List Char) (e val : PyVal) (st st1 : State) (j : Nat),
       evalF f e env st = .ok (val, st1) →
       find st1 env (.str s) = some j →
       evalF (f + 3) (.list [symv "set!", .str s, e]) env st =
         .ok (.pynone, setBind st1 j (.str s) val))
    ∧ (∀ (f env : Nat) (s : List Char) (e val : PyVal) (st st1 : State),
       evalF f e env st = .ok (val, st1) →
       find st1 env (.str s) = none →
       evalF (f + 3) (.list [symv "set!", .str s, e]) env st = .error .unbound) := by
  refine ⟨?_, ?_, ?_, ?_, ?_, ?_, ?_⟩
  · intro st i v j h
    exact (findGo_chainGo v st (i + 1) i).1 j h
  · intro st i v h
    exact (findGo_chainGo v st (i + 1) i).2 h
  · intro st i hwf hlen
    exact wf_chain_root st hwf (i + 1) i (by omega) hlen
  · intro f env s st h
    simp only [evalF, h]
  · intro f env s st j fr v hfind hfr hlk
    simp only [evalF, hfind, hfr, hlk]
  · intro f env s e val st st1 j he hfind
    simp only [evalF, evalList, keywordOf_setK, evalSpecial, he, hfind, PyVal.isList,
      Bool.false_eq_true, if_neg, not_false_eq_true]
  · intro f env s e val st st1 he hfind
    simp only [evalF, evalList, keywordOf_setK, evalSpecial, he, hfind, PyVal.isList,
      Bool.false_eq_true, if_neg, not_false_eq_true]

/-- A tiny two-frame arena for the C8 witness: the root binds `a`,
frame 1 is a child with no bindings. -/
def demoSt : State := ⟨[⟨[(symv "a", .int 1)], none⟩, ⟨[], some 0⟩], 0⟩

/-- Witness for C8 at the concrete arena `demoSt`, discharging every
hypothesis by computation. -/
theorem lookup_and_set_walk_outer_chain_witness :
    (∃ pre post, chain demoSt 1 = pre ++ 0 :: post ∧
       (∀ k ∈ pre, bindsAt demoSt k (symv "a") = false) ∧
       bindsAt demoSt 0 (symv "a") = true)
    ∧ (∀ j ∈ chain demoSt 1, bindsAt demoSt j (symv "b") = false)
    ∧ (∃ j, j ∈ chain demoSt 1 ∧ ∃ fr, demoSt.frames[j]? = some fr ∧ fr.outer = none)
    ∧ evalF 1 (symv "b") 1 demoSt = .error .unbound
    ∧ evalF 1 (symv "a") 1 demoSt = .ok (.int 1, demoSt)
    ∧ evalF 4 (.list [symv "set!", symv "a", .int 9]) 1 demoSt =
        .ok (.pynone, setBind demoSt 0 (symv "a") (.int 9))
    ∧ evalF 4 (.list [symv "set!", symv "b", .int 9]) 1 demoSt = .error .unbound := by
  have h := lookup_and_set_walk_outer_chain
  exact ⟨h.1 demoSt 1 (symv "a") 0 rfl,
    h.2.1 demoSt 1 (symv "b") rfl,
    h.2.2.1 demoSt 1 rfl (by simp [demoSt]),
    h.2.2.2.1 0 1 "b".data demoSt rfl,
    h.2.2.2.2.1 0 1 "a".data demoSt 0 ⟨[(symv "a", .int 1)], none⟩ (.int 1) rfl rfl rfl,
    h.2.2.2.2.2.1 1 1 "a".data (.int 9) (.int 9) demoSt demoSt 0 rfl rfl,
    h.2.2.2.2.2.2 1 1 "b".data (.int 9) (.int 9) demoSt demoSt rfl rfl⟩

end Tiddly

namespace Tiddly

/-! ### C10 / C5: the string-merging loop of the tokenizer -/

/-- The text accumulated for a string token: each following word with
one preceding space. -/
def spaceJoin (us : List (List Char)) : List Char :=
  (us.map fun u => ' ' :: u).flatten

/-- In accumulation mode, words are appended (each with one preceding
space) until one ends in `"`. -/
theorem tokLoop_open_closes :
    ∀ (mid : List (List Char)) (acc w2 : List Char) (ws2 : List (List Char)),
      (∀ u ∈ mid, u.getLast? ≠ some '"') → w2.getLast? = some '"' →
      tokLoop (mid ++ w2 :: ws2) (some acc) =
        (acc ++ spaceJoin (mid ++ [w2])) :: tokLoop ws2 none := by
  intro mid
  induction mid with
  | nil =>
    intro acc w2 ws2 _ hw2
    simp only [List.nil_append, tokLoop, hw2, if_pos, spaceJoin, List.map_cons,
      List.map_nil, List.flatten_cons, List.flatten_nil, List.append_nil]
  | cons u mid ih =>
    intro acc w2 ws2 hmid hw2
    have hu : u.getLast? ≠ some '"' := hmid u (by simp)
    simp only [List.cons_append, tokLoop, if_neg hu, List.append_eq]
    rw [ih (acc ++ ' ' :: u) w2 ws2 (fun v hv => hmid v (List.mem_cons_of_mem _ hv)) hw2]
    simp [spaceJoin]

/-- In accumulation mode, if no remaining word ends in `"`, everything
accumulated is dropped: the loop returns no further token at all. -/
theorem tokLoop_open_drops :
    ∀ (ws : List (List Char)) (acc : List Char),
      (∀ u ∈ ws, u.getLast? ≠ some '"') → tokLoop ws (some acc) = [] := by
  intro ws
  induction ws with
  | nil => intro acc _; rfl
  | cons u rest ih =>
    intro acc h
    have hu : u.getLast? ≠ some '"' := h u (by simp)
    simp only [tokLoop, if_neg hu]
    exact ih _ fun v hv => h v (List.mem_cons_of_mem _ hv)

/-- Words that do not begin with `"` pass through the loop unchanged,
in source order. -/
theorem tokLoop_id :
    ∀ (ws : List (List Char)), (∀ u ∈ ws, u.head? ≠ some '"') →
      tokLoop ws none = ws := by
  intro ws
  induction ws with
  | nil => intro _; rfl
  | cons u rest ih =>
    intro h
    have hu : u.head? ≠ some '"' := h u (by simp)
    simp only [tokLoop, if_neg hu, List.cons.injEq, true_and]
    exact ih fun v hv => h v (List.mem_cons_of_mem _ hv)

/-- C10.  A word beginning with `"` (such as the single word `"hi"`)
puts the tokenizer into accumulation mode without its own trailing
quote counting as the closing quote (the closing test only runs on
later words, source lines 132-138): subsequent words are appended, one
preceding space each, until the first word ending in `"`, all merged
into a single token; and when no later word ends in `"`, the
accumulated words are omitted from the result entirely. -/
theorem open_quote_merges_or_drops :
    ∀ (w : List Char) (mid : List (List Char)),
      w.head? = some '"' →
      (∀ u ∈ mid, u.getLast? ≠ some '"') →
      (∀ (w2 : List Char) (ws2 : List (List Char)), w2.getLast? = some '"' →
        tokLoop (w :: (mid ++ w2 :: ws2)) none =
          (w ++ spaceJoin (mid ++ [w2])) :: tokLoop ws2 none)
      ∧ tokLoop (w :: mid) none = [] := by
  intro w mid hw hmid
  constructor
  · intro w2 ws2 hw2
    simp only [tokLoop, hw, if_pos]
    exact tokLoop_open_closes mid w w2 ws2 hmid hw2
  · simp only [tokLoop, hw, if_pos]
    exact tokLoop_open_drops mid w hmid

/-- Witness for C10: `"hi" a b" c` merges into the token
`"hi" a b"` followed by `c`, while `"hi" a` alone yields nothing. -/
theorem open_quote_merges_or_drops_witness :
    tokLoop ["\"hi\"".data, "a".data, "b\"".data, "c".data] none =
      ["\"hi\" a b\"".data, "c".data] ∧
    tokLoop ["\"hi\"".data, "a".data] none = [] := by
  have h := open_quote_merges_or_drops "\"hi\"".data ["a".data] rfl
    (by intro u hu; fin_cases hu <;> decide)
  refine ⟨?_, h.2⟩
  have h1 := h.1 "b\"".data ["c".data] rfl
  exact h1.trans (by rfl)

end Tiddly

namespace Tiddly

/-! ### C5 (corrected): tokenize is total and ordered, but drops an
unterminated string -/

/-- C5 counterexample.  On input `"ab cd` — a string opened but never
closed — `tokenize` returns no token at all: the accumulated text is
not passed through to the reader, it is lost. -/
theorem tokenize_unterminated_drops_counterexample :
    tokenize "\"ab cd".data = [] ∧ "\"ab cd".data ≠ [] := by
  exact ⟨rfl, by decide⟩

/-- C5 as amended.  `tokenize` is a total function producing tokens in
source order: words not beginning with `"` pass through unchanged; but
when a `"`-opened string is never closed (no later word ends in `"`),
the accumulated words are dropped from the returned sequence rather
than being passed through as an unterminated-string token (source
lines 129-141). -/
theorem tokenize_total_ordered_drops_unterminated :
    (∀ (ws : List (List Char)), (∀ u ∈ ws, u.head? ≠ some '"') →
       tokLoop ws none = ws)
    ∧ (∀ (ws : List (List Char)) (acc : List Char),
       (∀ u ∈ ws, u.getLast? ≠ some '"') → tokLoop ws (some acc) = [])
    ∧ (∀ (w : List Char) (ws : List (List Char)),
       w.head? = some '"' → (∀ u ∈ ws, u.getLast? ≠ some '"') →
       tokLoop (w :: ws) none = []) := by
  refine ⟨tokLoop_id, tokLoop_open_drops, ?_⟩
  intro w ws hw hws
  simp only [tokLoop, hw, if_pos]
  exact tokLoop_open_drops ws w hws

/-- Witness for C5's amended statement at concrete inputs. -/
theorem tokenize_total_ordered_drops_unterminated_witness :
    tokLoop ["ab".data, "cd".data] none = ["ab".data, "cd".data] ∧
    tokLoop ["xy".data] (some "\"ab".data) = [] ∧
    tokLoop ["\"ab".data, "cd".data] none = [] :=
  ⟨tokenize_total_ordered_drops_unterminated.1 ["ab".data, "cd".data]
      (by intro u hu; fin_cases hu <;> decide),
   tokenize_total_ordered_drops_unterminated.2.1 ["xy".data] "\"ab".data
      (by intro u hu; fin_cases hu <;> decide),
   tokenize_total_ordered_drops_unterminated.2.2 "\"ab".data ["cd".data] rfl
      (by intro u hu; fin_cases hu <;> decide)⟩

/-! ### C4 (corrected): reader failure on exhausted tokens -/

/-- C4 counterexample.  On the unbalanced sequence `( 1` the reader
fails — but with the `IndexError` that `tokens[0]` raises on source
line 152, not with the `SyntaxError` (`UnexpectedEOF`) of line 148,
which only the initial call on an empty sequence raises. -/
theorem read_from_mid_list_error_counterexample :
    read_from [['('], ['1']] = .error .indexError ∧
    RErr.indexError ≠ RErr.unexpectedEOF := by
  exact ⟨rfl, by decide⟩

/-- C4 as amended.  When the token sequence is empty at the initial
call, `read_from` fails with the `SyntaxError` `UnexpectedEOF` (line
148); when the tokens run out while collecting the elements of a list
whose `)` has not appeared, the `while tokens[0] != ')'` test of line
152 fails with a host `IndexError` instead; in both cases the result is
an error, never a partial value.  (A sequence that starts with one
complete balanced form followed by excess tokens — e.g. a stray `)` —
is not an error: `read_from` returns the first form and leaves the
rest, as the final conjunct shows.) -/
theorem read_from_eof_errors :
    read_from [] = .error .unexpectedEOF
    ∧ (∀ (fl : Nat) (acc : List PyVal), readListF fl acc [] = .error .indexError)
    ∧ read_from [['('], ['1']] = .error .indexError
    ∧ read_from [['('], ['a'], [')'], [')']] =
        .ok (.list [.str ['a']], [[')']]) := by
  refine ⟨rfl, ?_, rfl, rfl⟩
  intro fl acc
  cases fl <;> rfl

end Tiddly

namespace Tiddly

/-! ### C2: the parse / to_string round trip -/

/-- The "atoms and lists, no quoting" fragment of the claim: integer
atoms, symbol atoms, nested lists.  (Float atoms are host floating
point and are excluded from the embedding; string atoms with quotes are
just symbol atoms whose text carries the quote characters.) -/
inductive SExp where
  | int : Int → SExp
  | sym : List Char → SExp
  | list : List SExp → SExp

mutual
/-- The Python object such an Expression denotes. -/
def SExp.toVal : SExp → PyVal
  | .int n => .int n
  | .sym s => .str s
  | .list xs => .list (SExp.toValL xs)
def SExp.toValL : List SExp → List PyVal
  | [] => []
  | x :: xs => SExp.toVal x :: SExp.toValL xs
end

/-- A symbol text that survives the lexer and the reader verbatim:
nonempty, free of whitespace and parentheses, not beginning with a
double quote, and accepted by neither `int()` nor `float()`. -/
def goodSym (s : List Char) : Bool :=
  !s.isEmpty && s.all (fun c => !pyIsSpace c && c ≠ '(' && c ≠ ')') &&
    s.head? != some '"' && (pyIntParse s).isNone && !pyFloatAccepts s

mutual
def SExp.good : SExp → Bool
  | .int _ => true
  | .sym s => goodSym s
  | .list xs => SExp.goodL xs
def SExp.goodL : List SExp → Bool
  | [] => true
  | x :: xs => SExp.good x && SExp.goodL xs
end

mutual
/-- The token texts the lexer should recover from the rendering. -/
def toks : SExp → List (List Char)
  | .int n => [intStr n]
  | .sym s => [s]
  | .list xs => ['('] :: toksL xs ++ [[')']]
def toksL : List SExp → List (List Char)
  | [] => []
  | x :: xs => toks x ++ toksL xs
end

/-- Member-wise induction for the nested inductive `SExp`. -/
theorem SExp.induct (P : SExp → Prop)
    (h1 : ∀ n, P (.int n)) (h2 : ∀ s, P (.sym s))
    (h3 : ∀ xs, (∀ x ∈ xs, P x) → P (.list xs)) : ∀ e, P e := by
  intro e
  refine @SExp.rec P (fun xs => ∀ x ∈ xs, P x) h1 h2 h3 ?_ ?_ e
  · intro x hx; cases hx
  · intro a as ha has x hx
    cases hx with
    | head => exact ha
    | tail _ h => exact has x h

/-- C2 counterexample.  The symbol `1` renders as the text `1`, which
parses back as the integer `1`, not the symbol: `parse ∘ to_string` is
not the identity on Expressions built only from atoms and lists. -/
theorem roundtrip_fails_on_numeric_symbol_counterexample :
    parse (to_string (PyVal.str ['1'])) = .ok (.int 1) ∧
    PyVal.int 1 ≠ PyVal.str ['1'] :=
  ⟨rfl, fun h => PyVal.noConfusion h⟩

end Tiddly

namespace Tiddly

/-! ### Integer printing round trip -/

theorem digitsVal_append (xs : List Char) (c : Char) :
    digitsVal (xs ++ [c]) = digitsVal xs * 10 + digitVal c := by
  simp [digitsVal, List.foldl_append]

theorem isDig_facts {c : Char} (h : isDig c = true) :
    pyIsSpace c = false ∧ c ≠ '(' ∧ c ≠ ')' ∧ c ≠ '"' ∧ c ≠ '-' ∧ c ≠ '+' := by
  refine ⟨?_, ?_, ?_, ?_, ?_, ?_⟩
  · cases hc : pyIsSpace c
    · rfl
    · exfalso
      simp only [pyIsSpace, Bool.or_eq_true, decide_eq_true_eq] at hc
      rcases hc with ((((h1 | h1) | h1) | h1) | h1) | h1 <;>
        (subst h1; exact absurd h (by decide))
  all_goals (intro h1; subst h1; exact absurd h (by decide))

theorem dropWhile_id {p : Char → Bool} (s : List Char)
    (h : ∀ c ∈ s, p c = false) : s.dropWhile p = s := by
  cases s with
  | nil => rfl
  | cons c cs =>
    rw [List.dropWhile_cons]
    simp [h c (by simp)]

theorem stripWs_id (s : List Char) (h : ∀ c ∈ s, pyIsSpace c = false) :
    stripWs s = s := by
  unfold stripWs
  rw [dropWhile_id s h]
  rw [dropWhile_id s.reverse fun c hc => h c (List.mem_reverse.mp hc)]
  exact List.reverse_reverse s

theorem natCharsGo_spec : ∀ (fl n : Nat), n < fl →
    natCharsGo fl n ≠ [] ∧ (natCharsGo fl n).all isDig = true ∧
      digitsVal (natCharsGo fl n) = n := by
  intro fl
  induction fl with
  | zero => intro n h; omega
  | succ fl ih =>
    intro n hn
    by_cases h10 : n < 10
    · simp only [natCharsGo, if_pos h10]
      refine ⟨by simp, ?_, ?_⟩ <;> (interval_cases n <;> decide)
    · have hdiv : n / 10 < n := Nat.div_lt_self (by omega) (by omega)
      obtain ⟨ih1, ih2, ih3⟩ := ih (n / 10) (by omega)
      have hmod : n % 10 < 10 := Nat.mod_lt n (by omega)
      have hdig : isDig (Char.ofNat (48 + n % 10)) = true := by
        set r := n % 10 with hr
        interval_cases r <;> decide
      have hval : digitVal (Char.ofNat (48 + n % 10)) = n % 10 := by
        set r := n % 10 with hr
        interval_cases r <;> decide
      simp only [natCharsGo, if_neg h10]
      refine ⟨by simp, ?_, ?_⟩
      · rw [List.all_append, ih2]
        simp [hdig]
      · rw [digitsVal_append, ih3, hval]
        omega

theorem natChars_spec (n : Nat) :
    natChars n ≠ [] ∧ (natChars n).all isDig = true ∧ digitsVal (natChars n) = n :=
  natCharsGo_spec (n + 1) n (by omega)

theorem pyIntParse_digits (s : List Char) (h0 : s ≠ []) (hd : s.all isDig = true) :
    pyIntParse s = some ((digitsVal s : Int)) := by
  have hst : stripWs s = s :=
    stripWs_id s fun c hc => (isDig_facts (List.all_eq_true.mp hd c hc)).1
  unfold pyIntParse
  rw [hst]
  split
  · next s' ds =>
    exact absurd (List.all_eq_true.mp hd '-' (by simp)) (by decide)
  · next s' ds =>
    exact absurd (List.all_eq_true.mp hd '+' (by simp)) (by decide)
  · next s' h1 h2 =>
    simp [h0, hd]

theorem pyIntParse_neg_digits (s : List Char) (h0 : s ≠ []) (hd : s.all isDig = true) :
    pyIntParse ('-' :: s) = some (-(digitsVal s : Int)) := by
  have hst : stripWs ('-' :: s) = '-' :: s := by
    refine stripWs_id _ ?_
    intro c hc
    rcases List.mem_cons.mp hc with h1 | h1
    · subst h1; decide
    · exact (isDig_facts (List.all_eq_true.mp hd c h1)).1
  unfold pyIntParse
  rw [hst]
  simp [h0, hd]

/-- Python `int(str(n)) == n`: the decimal rendering of an integer
parses back to the same integer. -/
theorem pyIntParse_intStr (n : Int) : pyIntParse (intStr n) = some n := by
  obtain ⟨h0, hd, hv⟩ := natChars_spec n.natAbs
  by_cases hneg : n < 0
  · rw [intStr, if_pos hneg, pyIntParse_neg_digits _ h0 hd, hv]
    have habs : (n.natAbs : Int) = -n := Int.ofNat_natAbs_of_nonpos (by omega)
    rw [habs, neg_neg]
  · rw [intStr, if_neg hneg, pyIntParse_digits _ h0 hd, hv]
    have habs : (n.natAbs : Int) = n := Int.natAbs_of_nonneg (by omega)
    rw [habs]

end Tiddly

namespace Tiddly

/-! ### Lexing the rendered text -/

theorem padParens_append (a b : List Char) :
    padParens (a ++ b) = padParens a ++ padParens b := by
  induction a with
  | nil => rfl
  | cons c cs ih =>
    simp only [List.cons_append, padParens]
    split_ifs <;> simp [ih]

theorem padParens_id (s : List Char) (h : ∀ c ∈ s, c ≠ '(' ∧ c ≠ ')') :
    padParens s = s := by
  induction s with
  | nil => rfl
  | cons c cs ih =>
    simp only [padParens, if_neg (h c (by simp)).1, if_neg (h c (by simp)).2]
    rw [ih fun d hd => h d (List.mem_cons_of_mem _ hd)]

theorem wordsAux_append_space (x y : List Char) :
    ∀ cur, wordsAux (x ++ ' ' :: y) cur = wordsAux x cur ++ wordsAux y [] := by
  induction x with
  | nil =>
    intro cur
    have hsp : pyIsSpace ' ' = true := rfl
    simp [wordsAux, hsp]
  | cons c cs ih =>
    intro cur
    simp only [List.cons_append, wordsAux]
    by_cases hc : pyIsSpace c = true
    · simp [hc, ih [], List.append_assoc]
    · simp only [hc, if_neg, Bool.false_eq_true, not_false_eq_true]
      exact ih (c :: cur)

theorem wordsAux_no_space (w : List Char) (hw : ∀ c ∈ w, pyIsSpace c = false) :
    ∀ cur, wordsAux w cur =
      if cur.reverse ++ w = [] then [] else [cur.reverse ++ w] := by
  induction w with
  | nil =>
    intro cur
    simp only [wordsAux, List.append_nil]
    by_cases h : cur = []
    · subst h; simp
    · rw [if_neg h, if_neg (by simp [h])]
  | cons c cs ih =>
    intro cur
    have hc : pyIsSpace c = false := hw c (by simp)
    simp only [wordsAux, hc, Bool.false_eq_true, if_neg, not_false_eq_true]
    rw [ih (fun d hd => hw d (List.mem_cons_of_mem _ hd)) (c :: cur)]
    rw [if_neg (by simp), if_neg (by simp)]
    simp

theorem words_single (w : List Char) (hne : w ≠ [])
    (hw : ∀ c ∈ w, pyIsSpace c = false) : words w = [w] := by
  unfold words
  rw [wordsAux_no_space w hw []]
  simp [hne]

end Tiddly

namespace Tiddly

theorem intStr_mem {n : Int} {c : Char} (hc : c ∈ intStr n) :
    isDig c = true ∨ c = '-' := by
  obtain ⟨_, hall, _⟩ := natChars_spec n.natAbs
  unfold intStr at hc
  split_ifs at hc with h
  · rcases List.mem_cons.mp hc with h1 | h1
    · exact Or.inr h1
    · exact Or.inl (List.all_eq_true.mp hall c h1)
  · exact Or.inl (List.all_eq_true.mp hall c hc)

theorem token_char_ok {c : Char} (h : isDig c = true ∨ c = '-') :
    pyIsSpace c = false ∧ c ≠ '(' ∧ c ≠ ')' := by
  rcases h with h | h
  · obtain ⟨h1, h2, h3, _⟩ := isDig_facts h
    exact ⟨h1, h2, h3⟩
  · subst h
    exact ⟨rfl, by decide, by decide⟩

theorem intStr_ne_nil (n : Int) : intStr n ≠ [] := by
  obtain ⟨h0, _, _⟩ := natChars_spec n.natAbs
  unfold intStr
  split_ifs <;> simp [h0]

theorem goodSym_spec {s : List Char} (hg : goodSym s = true) :
    s ≠ [] ∧ (∀ c ∈ s, pyIsSpace c = false ∧ c ≠ '(' ∧ c ≠ ')') ∧
      s.head? ≠ some '"' ∧ pyIntParse s = none ∧ pyFloatAccepts s = false := by
  simp only [goodSym, Bool.and_eq_true, Bool.not_eq_true',
    bne_iff_ne, ne_eq, Option.isNone_iff_eq_none, List.all_eq_true] at hg
  obtain ⟨⟨⟨⟨hne, hall⟩, hq⟩, hint⟩, hfl⟩ := hg
  have hne2 : s ≠ [] := by
    intro hcon
    subst hcon
    simp at hne
  refine ⟨hne2, ?_, hq, hint, hfl⟩
  intro c hc
  have := hall c hc
  simp only [Bool.and_eq_true, Bool.not_eq_true', decide_eq_true_eq] at this
  exact ⟨this.1.1, this.1.2, this.2⟩

/-- Splitting the rendering of a sequence of good Expressions recovers
their token texts. -/
theorem words_toStringL (xs : List SExp)
    (ihmem : ∀ x ∈ xs, SExp.good x = true →
      words (padParens (to_string (SExp.toVal x))) = toks x)
    (hg : SExp.goodL xs = true) :
    words (padParens (toStringL (SExp.toValL xs))) = toksL xs := by
  induction xs with
  | nil => rfl
  | cons x rest ih =>
    have hg' := hg
    simp only [SExp.goodL, Bool.and_eq_true] at hg'
    cases rest with
    | nil =>
      show words (padParens (to_string (SExp.toVal x))) = toksL [x]
      rw [ihmem x (by simp) hg'.1]
      show toks x = toks x ++ toksL []
      simp [toksL]
    | cons y rest' =>
      show words (padParens (to_string (SExp.toVal x) ++
        ' ' :: toStringL (SExp.toValL (y :: rest')))) = toksL (x :: y :: rest')
      rw [padParens_append]
      have hsp : padParens (' ' :: toStringL (SExp.toValL (y :: rest'))) =
          ' ' :: padParens (toStringL (SExp.toValL (y :: rest'))) := by
        simp [padParens]
      rw [hsp]
      show wordsAux (padParens (to_string (SExp.toVal x)) ++
        ' ' :: padParens (toStringL (SExp.toValL (y :: rest')))) [] = _
      rw [wordsAux_append_space]
      show words (padParens (to_string (SExp.toVal x))) ++
        words (padParens (toStringL (SExp.toValL (y :: rest')))) = _
      rw [ihmem x (by simp) hg'.1,
        ih (fun z hz => ihmem z (List.mem_cons_of_mem _ hz)) hg'.2]
      rfl

/-- Lexing the rendering of a good Expression yields exactly its token
texts. -/
theorem words_toStr : ∀ e, SExp.good e = true →
    words (padParens (to_string (SExp.toVal e))) = toks e := by
  refine SExp.induct _ ?_ ?_ ?_
  · intro n _
    have hchars : ∀ c ∈ intStr n, pyIsSpace c = false ∧ c ≠ '(' ∧ c ≠ ')' :=
      fun c hc => token_char_ok (intStr_mem hc)
    show words (padParens (intStr n)) = [intStr n]
    rw [padParens_id _ fun c hc => ⟨(hchars c hc).2.1, (hchars c hc).2.2⟩]
    exact words_single _ (intStr_ne_nil n) fun c hc => (hchars c hc).1
  · intro s hg
    obtain ⟨hne, hchars, _, _, _⟩ := goodSym_spec hg
    show words (padParens s) = [s]
    rw [padParens_id _ fun c hc => ⟨(hchars c hc).2.1, (hchars c hc).2.2⟩]
    exact words_single _ hne fun c hc => (hchars c hc).1
  · intro xs ihmem hg
    have hmid := words_toStringL xs ihmem (by simpa [SExp.good] using hg)
    show words (padParens ('(' :: (toStringL (SExp.toValL xs) ++ [')']))) =
      ['('] :: toksL xs ++ [[')']]
    have h1 : padParens ('(' :: (toStringL (SExp.toValL xs) ++ [')'])) =
        [' ', '('] ++ ' ' :: (padParens (toStringL (SExp.toValL xs)) ++
          [' ', ')', ' ']) := by
      simp [padParens, padParens_append]
    rw [h1]
    show wordsAux ([' ', '('] ++ ' ' :: (padParens (toStringL (SExp.toValL xs)) ++
      [' ', ')', ' '])) [] = _
    rw [wordsAux_append_space]
    rw [wordsAux_append_space]
    rw [show wordsAux [' ', '('] [] = [['(']] from rfl]
    rw [show wordsAux [')', ' '] [] = [[')']] from rfl]
    rw [show wordsAux (padParens (toStringL (SExp.toValL xs))) [] =
      words (padParens (toStringL (SExp.toValL xs))) from rfl]
    rw [hmid]
    simp

end Tiddly

namespace Tiddly

/-! ### Token-level facts about the rendering -/

theorem toksL_tokens_ok (xs : List SExp)
    (ihmem : ∀ x ∈ xs, SExp.good x = true →
      ∀ t ∈ toks x, t ≠ [] ∧ t.head? ≠ some '"')
    (hg : SExp.goodL xs = true) :
    ∀ t ∈ toksL xs, t ≠ [] ∧ t.head? ≠ some '"' := by
  induction xs with
  | nil => intro t ht; cases ht
  | cons x rest ih =>
    simp only [SExp.goodL, Bool.and_eq_true] at hg
    intro t ht
    rcases List.mem_append.mp ht with h1 | h1
    · exact ihmem x (by simp) hg.1 t h1
    · exact ih (fun z hz => ihmem z (List.mem_cons_of_mem _ hz)) hg.2 t h1

theorem toks_tokens_ok : ∀ e, SExp.good e = true →
    ∀ t ∈ toks e, t ≠ [] ∧ t.head? ≠ some '"' := by
  refine SExp.induct _ ?_ ?_ ?_
  · intro n _ t ht
    have ht' : t = intStr n := by simpa [toks] using ht
    subst ht'
    refine ⟨intStr_ne_nil n, ?_⟩
    cases hs : intStr n with
    | nil => exact absurd hs (intStr_ne_nil n)
    | cons c cs =>
      have hc : c ∈ intStr n := by rw [hs]; simp
      simp only [List.head?_cons, ne_eq, Option.some.injEq]
      rcases intStr_mem hc with h | h
      · exact (isDig_facts h).2.2.2.1
      · subst h; decide
  · intro s hg t ht
    have ht' : t = s := by simpa [toks] using ht
    subst ht'
    obtain ⟨hne, _, hq, _, _⟩ := goodSym_spec hg
    exact ⟨hne, hq⟩
  · intro xs ihmem hg t ht
    simp only [toks] at ht
    rcases List.mem_cons.mp ht with h1 | h1
    · subst h1; exact ⟨by simp, by decide⟩
    · rcases List.mem_append.mp h1 with h2 | h2
      · exact toksL_tokens_ok xs ihmem (by simpa [SExp.good] using hg) t h2
      · have : t = [')'] := by simpa using h2
        subst this; exact ⟨by simp, by decide⟩

theorem toks_first_ne_close : ∀ x, SExp.good x = true →
    ∃ t ts, toks x = t :: ts ∧ t ≠ [')'] := by
  intro x hg
  cases x with
  | int n =>
    refine ⟨intStr n, [], rfl, ?_⟩
    intro hcon
    have : ')' ∈ intStr n := by rw [hcon]; simp
    rcases intStr_mem this with h | h
    · exact absurd h (by decide)
    · exact absurd h (by decide)
  | sym s =>
    refine ⟨s, [], rfl, ?_⟩
    intro hcon
    obtain ⟨_, hchars, _, _, _⟩ := goodSym_spec hg
    have : ')' ∈ s := by rw [hcon]; simp
    exact absurd rfl (hchars ')' this).2.2
  | list xs => exact ⟨['('], toksL xs ++ [[')']], rfl, by decide⟩

/-! ### The reader recovers a good Expression from its tokens -/

theorem readList_toksL (xs : List SExp)
    (ihmem : ∀ x ∈ xs, SExp.good x = true →
      ∀ (rest : List (List Char)) (fl : Nat), 2 * (toks x).length ≤ fl →
        readFromF fl (toks x ++ rest) = .ok (SExp.toVal x, rest))
    (hg : SExp.goodL xs = true) :
    ∀ (acc : List PyVal) (rest : List (List Char)) (fl : Nat),
      2 * (toksL xs).length + 1 ≤ fl →
      readListF fl acc (toksL xs ++ [')'] :: rest) =
        .ok (.list (acc ++ SExp.toValL xs), rest) := by
  induction xs with
  | nil =>
    intro acc rest fl hfl
    obtain ⟨fl', rfl⟩ : ∃ fl', fl = fl' + 1 := ⟨fl - 1, by omega⟩
    show readListF (fl' + 1) acc ([')'] :: rest) = .ok (.list (acc ++ []), rest)
    simp [readListF]
  | cons x rest' ih =>
    intro acc rest fl hfl
    simp only [SExp.goodL, Bool.and_eq_true] at hg
    obtain ⟨t, ts, htoks, htne⟩ := toks_first_ne_close x hg.1
    have hlx : (toks x).length = ts.length + 1 := by rw [htoks]; simp
    have hlen : (toksL (x :: rest')).length =
        (toks x).length + (toksL rest').length := by
      show (toks x ++ toksL rest').length = _
      simp
    obtain ⟨fl', rfl⟩ : ∃ fl', fl = fl' + 1 := ⟨fl - 1, by omega⟩
    have harr : toksL (x :: rest') ++ [')'] :: rest =
        t :: (ts ++ (toksL rest' ++ [')'] :: rest)) := by
      show (toks x ++ toksL rest') ++ _ = _
      rw [htoks]
      simp
    rw [harr]
    show readListF (fl' + 1) acc _ = _
    simp only [readListF]
    rw [if_neg htne]
    rw [show t :: (ts ++ (toksL rest' ++ [')'] :: rest)) =
      toks x ++ (toksL rest' ++ [')'] :: rest) from by rw [htoks]; rfl]
    rw [ihmem x (by simp) hg.1 (toksL rest' ++ [')'] :: rest) fl' (by omega)]
    show readListF fl' (acc ++ [SExp.toVal x]) (toksL rest' ++ [')'] :: rest) = _
    rw [ih (fun z hz => ihmem z (List.mem_cons_of_mem _ hz)) hg.2
      (acc ++ [SExp.toVal x]) rest fl' (by omega)]
    show Except.ok (PyVal.list ((acc ++ [SExp.toVal x]) ++ SExp.toValL rest'), rest) = _
    simp [SExp.toValL]

theorem readFromF_toks : ∀ e, SExp.good e = true →
    ∀ (rest : List (List Char)) (fl : Nat), 2 * (toks e).length ≤ fl →
      readFromF fl (toks e ++ rest) = .ok (SExp.toVal e, rest) := by
  refine SExp.induct _ ?_ ?_ ?_
  · intro n _ rest fl hfl
    have hlen : (toks (SExp.int n)).length = 1 := rfl
    obtain ⟨fl', rfl⟩ : ∃ fl', fl = fl' + 1 := ⟨fl - 1, by omega⟩
    show readFromF (fl' + 1) (intStr n :: rest) = _
    have hop : intStr n ≠ ['('] := by
      intro hcon
      have : '(' ∈ intStr n := by rw [hcon]; simp
      rcases intStr_mem this with h | h
      · exact absurd h (by decide)
      · exact absurd h (by decide)
    have hcl : intStr n ≠ [')'] := by
      intro hcon
      have : ')' ∈ intStr n := by rw [hcon]; simp
      rcases intStr_mem this with h | h
      · exact absurd h (by decide)
      · exact absurd h (by decide)
    simp only [readFromF, if_neg hop, if_neg hcl]
    unfold atom
    rw [pyIntParse_intStr]
    rfl
  · intro s hg rest fl hfl
    obtain ⟨hne, hchars, _, hint, _⟩ := goodSym_spec hg
    have hlen : (toks (SExp.sym s)).length = 1 := rfl
    obtain ⟨fl', rfl⟩ : ∃ fl', fl = fl' + 1 := ⟨fl - 1, by omega⟩
    show readFromF (fl' + 1) (s :: rest) = _
    have hop : s ≠ ['('] := by
      intro hcon
      have : '(' ∈ s := by rw [hcon]; simp
      exact absurd rfl (hchars '(' this).2.1
    have hcl : s ≠ [')'] := by
      intro hcon
      have : ')' ∈ s := by rw [hcon]; simp
      exact absurd rfl (hchars ')' this).2.2
    simp only [readFromF, if_neg hop, if_neg hcl]
    unfold atom
    rw [hint]
    rfl
  · intro xs ihmem hg rest fl hfl
    have hlen : (toks (SExp.list xs)).length = (toksL xs).length + 2 := by
      show (['('] :: toksL xs ++ [[')']]).length = _
      simp
    obtain ⟨fl', rfl⟩ : ∃ fl', fl = fl' + 1 := ⟨fl - 1, by omega⟩
    have harr : toks (SExp.list xs) ++ rest =
        ['('] :: (toksL xs ++ [')'] :: rest) := by
      show (['('] :: toksL xs ++ [[')']]) ++ rest = _
      simp
    rw [harr]
    show readFromF (fl' + 1) _ = _
    simp only [readFromF, if_pos rfl]
    rw [readList_toksL xs ihmem (by simpa [SExp.good] using hg) [] rest fl'
      (by omega)]
    rfl

/-- C2 as amended.  For every Expression built only from integer atoms,
good symbol atoms (nonempty, free of whitespace/parentheses, not
starting with a double quote, not accepted by `int()` or `float()`) and
nested lists, parsing the rendered text gives back the same Expression:
`parse (to_string e) = e`. -/
theorem parse_to_string_good_roundtrip :
    ∀ (e : SExp), SExp.good e = true →
      parse (to_string (SExp.toVal e)) = .ok (SExp.toVal e) := by
  intro e hg
  unfold parse tokenize
  rw [show words (padParens (to_string (SExp.toVal e))) = toks e from words_toStr e hg]
  rw [tokLoop_id (toks e) fun t ht => (toks_tokens_ok e hg t ht).2]
  unfold read_from
  have h := readFromF_toks e hg [] (2 * (toks e).length + 2) (by omega)
  rw [List.append_nil] at h
  rw [h]
  rfl

/-- Witness for C2's amended round trip at the concrete Expression
`(ab -12 (cd))`. -/
theorem parse_to_string_good_roundtrip_witness :
    parse (to_string (SExp.toVal (SExp.list [SExp.sym "ab".data, SExp.int (-12),
        SExp.list [SExp.sym "cd".data]]))) =
      .ok (SExp.toVal (SExp.list [SExp.sym "ab".data, SExp.int (-12),
        SExp.list [SExp.sym "cd".data]])) :=
  parse_to_string_good_roundtrip
    (SExp.list [SExp.sym "ab".data, SExp.int (-12), SExp.list [SExp.sym "cd".data]])
    (by rfl)

end Tiddly
